import Mathlib

/-!
# LittleStarEnglish — verification of the spec against the source

Shallow embedding of the LittleStarEnglish application (a React single-page
app whose logic surface is three wrappers around a generative-AI API plus an
audio decode-and-playback pipeline).  Pure functions of the source become
Lean functions; the module-level mutable state (the AudioContext singleton,
the React chat-history state) becomes explicit state passing; host effects
(the AI requests, JSON.parse, the audio subsystem) become parameters
describing their outcome; bytes are `Nat` below 256 and normalized audio
samples are exact rationals.

The `audioUtils` module (`decode`, `decodeAudioData`, `playAudioBuffer`)
is imported by the service layer, but its file is not part of the sources
at hand; those definitions are modelled from the spec (§4.1–§4.3) and are
marked as such in their doc comments.
-/

/-! ## Base64 decoder (spec §4.1)

Modelled from the spec: the source file `services/audioUtils.ts` defining
`decode` is not among the sources; per the spec, `decode` converts a base64
string (standard alphabet, optional padding) into a byte sequence and fails
on malformed input. -/

/-- Modelled from the spec: value of one character of the standard base64
alphabet (`A`–`Z`, `a`–`z`, `0`–`9`, `+`, `/`), `none` on any other
character. -/
def b64Index (c : Char) : Option Nat :=
  let n := c.toNat
  if 65 ≤ n ∧ n ≤ 90 then some (n - 65)
  else if 97 ≤ n ∧ n ≤ 122 then some (n - 97 + 26)
  else if 48 ≤ n ∧ n ≤ 57 then some (n - 48 + 52)
  else if n = 43 then some 62
  else if n = 47 then some 63
  else none

/-- Modelled from the spec: reassemble a list of six-bit values into bytes.
Groups of four sextets yield three bytes; a trailing group of two or three
sextets yields one or two bytes; a single trailing sextet is malformed. -/
def decodeQuads : List Nat → Option (List Nat)
  | [] => some []
  | [_] => none
  | [a, b] => some [a * 4 + b / 16]
  | [a, b, c] => some [a * 4 + b / 16, b % 16 * 16 + c / 4]
  | a :: b :: c :: d :: rest =>
      (decodeQuads rest).map fun bs =>
        (a * 4 + b / 16) :: (b % 16 * 16 + c / 4) :: (c % 4 * 64 + d) :: bs

/-- Modelled from the spec (§4.1): `decode(input) -> ByteSequence`.  Trailing
`=` padding is dropped, every remaining character must belong to the
standard base64 alphabet, and the six-bit values are packed into bytes;
malformed input (a foreign character, or a leftover single sextet) yields
`none`, standing for `DecodeError`. -/
def decode (input : String) : Option (List Nat) :=
  let body := (input.data.reverse.dropWhile (fun c => c = '=')).reverse
  (body.mapM b64Index).bind decodeQuads

/-- Base64 character for a six-bit value (used only to state round-trip
properties; inverse of `b64Index` on values below 64). -/
def b64Char (n : Nat) : Char :=
  if n < 26 then Char.ofNat (65 + n)
  else if n < 52 then Char.ofNat (97 + n - 26)
  else if n < 62 then Char.ofNat (48 + n - 52)
  else if n = 62 then '+'
  else '/'

/-- Unpadded base64 encoding of a byte list (test scaffolding for the
round-trip property). -/
def encodeBytes : List Nat → List Char
  | [] => []
  | [a] => [b64Char (a / 4), b64Char (a % 4 * 16)]
  | [a, b] => [b64Char (a / 4), b64Char (a % 4 * 16 + b / 16), b64Char (b % 16 * 4)]
  | a :: b :: c :: rest =>
      b64Char (a / 4) :: b64Char (a % 4 * 16 + b / 16) ::
      b64Char (b % 16 * 4 + c / 64) :: b64Char (c % 64) :: encodeBytes rest

/-! ## PCM frame interpreter (spec §4.2)

Modelled from the spec: the source file `services/audioUtils.ts` defining
`decodeAudioData` is not among the sources; per the spec, it interprets raw
bytes as signed 16-bit little-endian PCM samples, normalizes by dividing by
32768.0 and clamping to [-1.0, 1.0], and (choosing the lenient policy the
spec recommends) truncates a trailing partial frame. -/

/-- An audio frame: sample rate, channel count, and one list of normalized
amplitudes per channel.  Amplitudes are exact rationals; every value the
decoder produces is a dyadic rational with denominator 32768, so the
rational model is exact for the IEEE floats of the source. -/
structure AudioFrame where
  sampleRate : Nat
  channelCount : Nat
  samples : List (List ℚ)
  deriving Repr, DecidableEq

/-- Byte at an offset of a byte sequence (0 past the end; the decoder only
reads in-range offsets). -/
def byteAt (bytes : List Nat) (i : Nat) : Nat := bytes.getD i 0

/-- The signed little-endian 16-bit integer formed by the byte pair at
`off`, `off + 1`. -/
def int16At (bytes : List Nat) (off : Nat) : Int :=
  let u := byteAt bytes off + byteAt bytes (off + 1) * 256
  if u < 32768 then (u : Int) else (u : Int) - 65536

/-- Clamp a normalized amplitude to [-1, 1]. -/
def clamp (q : ℚ) : ℚ := if q < -1 then -1 else if 1 < q then 1 else q

/-- Normalized sample read at byte offset `off`: int16, divided by 32768,
clamped. -/
def sampleValue (bytes : List Nat) (off : Nat) : ℚ :=
  clamp ((int16At bytes off : ℚ) / 32768)

/-- Modelled from the spec (§4.2):
`decodeAudioData(bytes, sampleRate, channelCount) -> AudioFrame`.  Sample
index `i` of channel `c` is read at byte offset `(i * channelCount + c) * 2`;
the frame count is the number of whole frames available, so a trailing
partial frame is truncated (the lenient policy the spec recommends). -/
def decodeAudioData (bytes : List Nat) (sampleRate channelCount : Nat) :
    AudioFrame :=
  let frameCount := bytes.length / (2 * channelCount)
  { sampleRate := sampleRate
    channelCount := channelCount
    samples := (List.range channelCount).map fun c =>
      (List.range frameCount).map fun i =>
        sampleValue bytes ((i * channelCount + c) * 2) }

/-- Little-endian byte pair of one int16 sample (test scaffolding for the
round-trip property). -/
def int16ToBytes (s : Int) : List Nat :=
  let u := (s % 65536).toNat
  [u % 256, u / 256]

/-- Little-endian PCM byte encoding of a list of int16 samples (test
scaffolding for the round-trip property). -/
def samplesToBytes (ss : List Int) : List Nat :=
  (ss.map int16ToBytes).flatten

/-! ## AudioContext singleton (source `getAudioContext`, part_000 lines 6–16)

```js
let audioContext: AudioContext | null = null;

function getAudioContext() {
  if (!audioContext) {
    audioContext = new (window.AudioContext || ...)({ sampleRate: 24000 });
  }
  if (audioContext.state === "suspended") {
    audioContext.resume();
  }
  return audioContext;
}
```

The module-level mutable `audioContext` becomes an explicit `AudioGlobal`
state threaded through the call.  Object identity is modelled by an `id`
field stamped from a construction counter, so "returns the same object" and
"constructs another" are expressible.  `resume()` is modelled as the
suspended→running transition on the stored context. -/

/-- The lifecycle states of a host audio context. -/
inductive CtxState where
  | suspended
  | running
  | closed
  deriving Repr, DecidableEq

/-- A host audio context: identity, sample rate, lifecycle state. -/
structure AudioCtx where
  id : Nat
  sampleRate : Nat
  state : CtxState
  deriving Repr, DecidableEq

/-- The module-level state of the service file: the nullable singleton and a
counter of contexts constructed so far (to count `new AudioContext` calls). -/
structure AudioGlobal where
  audioContext : Option AudioCtx
  created : Nat
  deriving Repr, DecidableEq

/-- The source function `getAudioContext` constructs the context on first use (with sample rate
24000 and a host-chosen initial state `initState`), requests `resume()`
whenever the stored context is suspended, and returns it.  Returns the
context together with the updated module state. -/
def getAudioContext (g : AudioGlobal) (initState : CtxState) :
    AudioCtx × AudioGlobal :=
  let (ctx, created) : AudioCtx × Nat :=
    match g.audioContext with
    | none => ({ id := g.created, sampleRate := 24000, state := initState },
               g.created + 1)
    | some ctx => (ctx, g.created)
  let ctx' := if ctx.state = CtxState.suspended
    then { ctx with state := CtxState.running } else ctx
  (ctx', { audioContext := some ctx', created := created })

/-! ## Text-to-speech playback (source `playTextToSpeech`, part_000 lines 101–133)

```js
export const playTextToSpeech = async (text) => {
  try {
    const ai = getAiClient();
    const ctx = getAudioContext();
    const response = await ai.models.generateContent({ ...tts request... });
    const base64Audio = response.candidates?.[0]?.content?.parts?.[0]?.inlineData?.data;
    if (base64Audio) {
      const audioBuffer = await decodeAudioData(decode(base64Audio), ctx, 24000, 1);
      await playAudioBuffer(audioBuffer, ctx);
    }
  } catch (error) {
    console.error("TTS Error:", error);
  }
};
```

Host effects become an environment describing their outcomes: the TTS
request may reject or return a response with or without inline audio data,
`new AudioContext` may throw (creation denied), and `playAudioBuffer`
(external, not among the sources) may reject.  `decode` throwing a
`DecodeError` is the `none` case of the model above.  The run record keeps
the promise outcome, the `console.error` log, the context handed to
`playAudioBuffer` (when that call is reached), and the final module state. -/

/-- Outcomes of the host effects one `playTextToSpeech` call performs. -/
structure TtsEnv where
  /-- Set to `some e` when constructing the AudioContext throws (creation denied). -/
  ctxFailure : Option String
  /-- Host-chosen initial state of a newly constructed context. -/
  initState : CtxState
  /-- TTS request: rejected promise, or a response whose optional inline
  data is the base64 audio string (`none` when absent). -/
  apiResult : Except String (Option String)
  /-- Outcome of `playAudioBuffer` on a given frame and context. -/
  playResult : AudioFrame → AudioCtx → Except String Unit

/-- What one `playTextToSpeech` call did. -/
structure TtsRun where
  /-- Outcome of the returned promise: `.ok` means it resolves normally. -/
  result : Except String Unit
  /-- Lines emitted via `console.error`. -/
  log : List String
  /-- The context passed to `playAudioBuffer`, when that call was reached. -/
  playedOn : Option AudioCtx
  /-- Final module-level state. -/
  final : AudioGlobal

/-- The body of the `try` block of `playTextToSpeech`: first stage outcome
(`.error` means an exception or rejection reached the `catch`), the context
handed to `playAudioBuffer` if reached, and the updated module state. -/
def playTextToSpeechTry (env : TtsEnv) (g : AudioGlobal) :
    Except String Unit × Option AudioCtx × AudioGlobal :=
  match env.ctxFailure with
  | some e => (.error e, none, g)
  | none =>
    let r := getAudioContext g env.initState
    match env.apiResult with
    | .error e => (.error e, none, r.2)
    | .ok none => (.ok (), none, r.2)
    | .ok (some b64) =>
      match decode b64 with
      | none => (.error "DecodeError", none, r.2)
      | some bytes =>
        (env.playResult (decodeAudioData bytes 24000 1) r.1, some r.1, r.2)

/-- The source function `playTextToSpeech`: the `try` body with the `catch` wrapped around it —
any failure is logged as a `TTS Error` and swallowed, so the returned
promise resolves normally on every path. -/
def playTextToSpeech (env : TtsEnv) (g : AudioGlobal) : TtsRun :=
  match playTextToSpeechTry env g with
  | (.ok _, played, g') =>
      { result := .ok (), log := [], playedOn := played, final := g' }
  | (.error e, played, g') =>
      { result := .ok (), log := ["TTS Error: " ++ e], playedOn := played,
        final := g' }

/-! ## Lesson generation (source `generateLesson`, part_000 lines 29–96)

The response text may be absent (`response.text` undefined) or empty, both
falsy in JS; `JSON.parse` is a host function, passed in as the outcome
function `jsonParse` (`none` = parse throws).  The defensive post-processing
works on untyped parsed JSON, so the lesson fields hold `Json` values. -/

/-- Parsed JSON values (the possible results of `JSON.parse`). -/
inductive Json where
  | null
  | bool (b : Bool)
  | num (q : ℚ)
  | str (s : String)
  | arr (elems : List Json)
  | obj (fields : List (String × Json))
  deriving Repr

/-- JS property access `v.k`: a field of an object, otherwise undefined
(`none`). -/
def Json.getField : Json → String → Option Json
  | .obj fields, k => fields.lookup k
  | _, _ => none

/-- JS truthiness of a defined value: `null`, `false`, `0` and `""` are
falsy; objects and arrays are truthy. -/
def Json.truthy : Json → Bool
  | .null => false
  | .bool b => b
  | .num q => decide (q ≠ 0)
  | .str s => decide (s ≠ "")
  | .arr _ => true
  | .obj _ => true

/-- JS `v || d` on a possibly-undefined value: `d` when `v` is undefined or
falsy. -/
def jsOr (v : Option Json) (d : Json) : Json :=
  match v with
  | some j => if j.truthy then j else d
  | none => d

/-- JS `Array.isArray(v) ? v : []` on a possibly-undefined value. -/
def Json.asArray : Option Json → List Json
  | some (.arr xs) => xs
  | _ => []

/-- The lesson record `generateLesson` returns.  The source annotates it as
`LessonContent` but performs no per-field type validation, so the fields
hold raw parsed JSON (`vocabulary` and `quiz` are forced to arrays). -/
structure LessonContent where
  title : Json
  introduction : Json
  vocabulary : List Json
  story : Json
  quiz : List Json
  deriving Repr

/-- The source function `generateLesson`, given the response text (`none` = `response.text`
undefined) and the outcome of `JSON.parse` on strings: if the text is
truthy it is parsed — a parse failure throws "Invalid lesson format
received", success returns the lesson with defaults substituted for falsy
fields and non-arrays forced to `[]` — and a falsy text throws "Failed to
generate lesson content". -/
def generateLesson (text : Option String) (jsonParse : String → Option Json) :
    Except String LessonContent :=
  match text with
  | some t =>
    if t = "" then .error "Failed to generate lesson content"
    else
      match jsonParse t with
      | some parsed => .ok
          { title := jsOr (parsed.getField "title") (.str "Untitled Lesson")
            introduction := jsOr (parsed.getField "introduction")
              (.str "Welcome to your lesson!")
            vocabulary := Json.asArray (parsed.getField "vocabulary")
            story := jsOr (parsed.getField "story")
              (.str "Let\x27s learn together!")
            quiz := Json.asArray (parsed.getField "quiz") }
      | none => .error "Invalid lesson format received"
  | none => .error "Failed to generate lesson content"

/-! ## Chat (source `handleSendMessage`, App.tsx lines 52–75, and
`sendChatMessage`, part_000 lines 138–150)

React state updates `setChatHistory(prev => [...prev, msg])` become list
appends on an explicit history; the chat API call outcome is a parameter
(rejection, or a result whose `text` may be absent or empty). -/

/-- Chat participant (types.ts role field, "user" or "model"). -/
inductive Role where
  | user
  | model
  deriving Repr, DecidableEq

/-- A chat history entry (types.ts `ChatMessage`; the optional `isAudio`
flag is never set by the code under study). -/
structure ChatMessage where
  role : Role
  text : String
  deriving Repr, DecidableEq

/-- The source function `sendChatMessage` returns the result text, or the fallback when it is
absent or empty (`result.text || "Sorry, ..."`). -/
def sendChatMessage (resultText : Option String) : String :=
  match resultText with
  | some t => if t = "" then "Sorry, I didn\x27t catch that." else t
  | none => "Sorry, I didn\x27t catch that."

/-- The source function `handleSendMessage`: no-op on a whitespace-only input; otherwise appends
the user message, then appends either the model reply (on success of the
chat call, whose result text runs through `sendChatMessage`) or the fixed
fallback error message (when the call rejects). -/
def handleSendMessage (history : List ChatMessage) (inputMessage : String)
    (chatOutcome : Except String (Option String)) : List ChatMessage :=
  if inputMessage.trim = "" then history
  else
    let userMsg : ChatMessage := { role := .user, text := inputMessage }
    let h1 := history ++ [userMsg]
    match chatOutcome with
    | .ok rt => h1 ++ [{ role := .model, text := sendChatMessage rt }]
    | .error _ => h1 ++
        [{ role := .model,
           text := "Oops! I had trouble connecting. Please say that again." }]

/-! ## Helper definitions used in theorem statements -/

/-- The signed 16-bit integer with little-endian bytes `lo`, `hi`, written
independently of the decoder: the unsigned value shifted into
[-32768, 32768) by modular arithmetic. -/
def sint16 (lo hi : Nat) : Int :=
  ((lo + hi * 256 + 32768) % 65536 : Nat) - 32768

/-- A possibly-undefined JSON value that is absent or a string (the shapes a
schema-conforming response produces for the text fields). -/
def strField (v : Option Json) : Prop :=
  v = none ∨ ∃ s0, v = some (Json.str s0)

/-- A JSON value that is a non-empty string. -/
def nonEmptyStr (j : Json) : Prop :=
  ∃ s, j = Json.str s ∧ s ≠ ""

/-- A `JSON.parse` outcome returning an object whose `title` is the number
5 — legitimate JSON that does not conform to the lesson schema. -/
def parseTitleNum : String → Option Json :=
  fun _ => some (Json.obj [("title", Json.num 5)])

/-! ## Theorems -/

/-! ### Shared lemmas -/

/-- The context `getAudioContext` returns is never suspended: a suspended
context (stored or freshly constructed) has `resume()` requested on it
before being returned. -/
theorem getAudioContext_not_suspended (g : AudioGlobal) (s : CtxState) :
    (getAudioContext g s).1.state ≠ CtxState.suspended := by
  unfold getAudioContext
  rcases g.audioContext with _ | ctx <;> dsimp <;> split <;> simp_all

/-- The run record of `playTextToSpeech` holds exactly the context the `try` body handed to
`playAudioBuffer`. -/
theorem playTextToSpeech_playedOn (env : TtsEnv) (g : AudioGlobal) :
    (playTextToSpeech env g).playedOn = (playTextToSpeechTry env g).2.1 := by
  unfold playTextToSpeech
  rcases playTextToSpeechTry env g with ⟨r, p, g'⟩
  cases r <;> rfl

/-- When the `try` body of `playTextToSpeech` reaches `playAudioBuffer`, the
context it passes is the one `getAudioContext` returned. -/
theorem playTextToSpeechTry_ctx (env : TtsEnv) (g : AudioGlobal)
    (ctx : AudioCtx) (h : (playTextToSpeechTry env g).2.1 = some ctx) :
    ctx = (getAudioContext g env.initState).1 := by
  unfold playTextToSpeechTry at h
  split at h
  · simp at h
  · split at h
    · simp at h
    · simp at h
    · split at h
      · simp at h
      · simp only [Option.some.injEq] at h
        exact h.symm

/-- C1 (claim): for every input text and every failure during the TTS
request, base64 decode, audio decode, or playback, the promise returned by
`playTextToSpeech` resolves normally; the failure is only logged. -/
theorem playTextToSpeech_always_resolves (env : TtsEnv) (g : AudioGlobal) :
    (playTextToSpeech env g).result = Except.ok () := by
  unfold playTextToSpeech
  rcases playTextToSpeechTry env g with ⟨r, p, g'⟩
  cases r <;> rfl

/-- C2 (claim): the AudioContext is a lazily created singleton — the first
call constructs exactly one context with sample rate 24000 and stores it;
a later call returns the stored object (same identity) without
constructing another; and a call on an already-running context changes no
state at all. -/
theorem getAudioContext_singleton :
    (∀ g s, g.audioContext = none →
        (getAudioContext g s).2.created = g.created + 1 ∧
        (getAudioContext g s).1.sampleRate = 24000 ∧
        (getAudioContext g s).1.id = g.created ∧
        (getAudioContext g s).2.audioContext = some (getAudioContext g s).1) ∧
    (∀ g s ctx, g.audioContext = some ctx →
        (getAudioContext g s).1.id = ctx.id ∧
        (getAudioContext g s).2.created = g.created ∧
        (getAudioContext g s).2.audioContext = some (getAudioContext g s).1) ∧
    (∀ g s ctx, g.audioContext = some ctx → ctx.state = CtxState.running →
        getAudioContext g s = (ctx, g)) := by
  refine ⟨?_, ?_, ?_⟩
  · intro g s hg
    unfold getAudioContext
    rw [hg]
    dsimp
    split <;> simp_all
  · intro g s ctx hg
    unfold getAudioContext
    rw [hg]
    dsimp
    split <;> simp_all
  · intro g s ctx hg hrun
    unfold getAudioContext
    rw [hg]
    dsimp
    rw [hrun]
    simp [← hg]

/-- Witness for C2: a stored running context is returned as-is, with the
module state untouched. -/
theorem getAudioContext_singleton_witness :
    getAudioContext ⟨some ⟨0, 24000, CtxState.running⟩, 1⟩ CtxState.suspended =
      (⟨0, 24000, CtxState.running⟩, ⟨some ⟨0, 24000, CtxState.running⟩, 1⟩) :=
  getAudioContext_singleton.2.2 ⟨some ⟨0, 24000, CtxState.running⟩, 1⟩
    CtxState.suspended ⟨0, 24000, CtxState.running⟩ rfl rfl

/-- C8 (claim): the chat history is append-only — `handleSendMessage`
leaves the previously stored messages and their order unchanged, only
appending new entries at the end. -/
theorem handleSendMessage_append_only (h : List ChatMessage) (m : String)
    (r : Except String (Option String)) :
    ∃ tail, handleSendMessage h m r = h ++ tail := by
  unfold handleSendMessage
  split
  · exact ⟨[], (List.append_nil h).symm⟩
  · cases r with
    | error e =>
        exact ⟨[⟨.user, m⟩,
          ⟨.model, "Oops! I had trouble connecting. Please say that again."⟩],
          by simp⟩
    | ok rt => exact ⟨[⟨.user, m⟩, ⟨.model, sendChatMessage rt⟩], by simp⟩

/-- C9 (claim): playback never starts on a suspended context — whenever
`playTextToSpeech` hands a context to `playAudioBuffer`, that context is
the one obtained from `getAudioContext`, which has requested `resume()` on
any suspended context before playback is scheduled, so its state is not
suspended. -/
theorem playback_context_not_suspended (env : TtsEnv) (g : AudioGlobal)
    (ctx : AudioCtx) (h : (playTextToSpeech env g).playedOn = some ctx) :
    ctx = (getAudioContext g env.initState).1 ∧
      ctx.state ≠ CtxState.suspended := by
  rw [playTextToSpeech_playedOn] at h
  have hc := playTextToSpeechTry_ctx env g ctx h
  exact ⟨hc, hc ▸ getAudioContext_not_suspended g env.initState⟩

/-- A byte sequence holds values below 256, so does any byte read (the
out-of-range default is 0). -/
theorem byteAt_lt (bytes : List Nat) (hb : ∀ b ∈ bytes, b < 256) (i : Nat) :
    byteAt bytes i < 256 := by
  unfold byteAt
  rw [List.getD_eq_getElem?_getD]
  rcases h : bytes[i]? with _ | b
  · simp
  · simpa using hb b (List.getElem?_mem h)

/-- On a byte sequence, the int16 read of the decoder agrees with the modular
rendering of a signed little-endian 16-bit integer. -/
theorem int16At_eq_sint16 (bytes : List Nat) (hb : ∀ b ∈ bytes, b < 256)
    (off : Nat) :
    int16At bytes off = sint16 (byteAt bytes off) (byteAt bytes (off + 1)) := by
  have h1 := byteAt_lt bytes hb off
  have h2 := byteAt_lt bytes hb (off + 1)
  simp only [int16At, sint16]
  split <;> omega

/-- Positioned read of one decoded sample: entry `i` of channel `c` of the
frame is the normalized sample at byte offset `(i * channelCount + c) * 2`. -/
theorem decodeAudioData_get (bytes : List Nat) (sr cc c i : Nat)
    (hc : c < cc) (hi : i < bytes.length / (2 * cc)) :
    ((decodeAudioData bytes sr cc).samples.getD c []).getD i 0 =
      sampleValue bytes ((i * cc + c) * 2) := by
  simp [decodeAudioData, List.getD_eq_getElem?_getD, List.getElem?_map,
    List.getElem?_range, hc, hi]

/-- C3 (claim): on a byte sequence whose length is a multiple of
`2 * channelCount`, every decoded sample is the consecutive byte pair read
as a signed little-endian 16-bit integer, divided by 32768 and clamped to
[-1, 1]; in particular for one channel the pair `0x00 0x80` decodes to
exactly -1 and `0xFF 0x7F` to 32767/32768. -/
theorem decodeAudioData_sample_rule :
    (∀ (bytes : List Nat) (sr cc c i : Nat), (∀ b ∈ bytes, b < 256) →
        bytes.length % (2 * cc) = 0 → c < cc →
        i < bytes.length / (2 * cc) →
        ((decodeAudioData bytes sr cc).samples.getD c []).getD i 0 =
          clamp ((sint16 (byteAt bytes ((i * cc + c) * 2))
            (byteAt bytes ((i * cc + c) * 2 + 1)) : ℚ) / 32768)) ∧
    (decodeAudioData [0x00, 0x80] 24000 1).samples = [[-1]] ∧
    (decodeAudioData [0xFF, 0x7F] 24000 1).samples = [[32767 / 32768]] := by
  refine ⟨?_, ?_, ?_⟩
  · intro bytes sr cc c i hb _ hc hi
    rw [decodeAudioData_get bytes sr cc c i hc hi]
    unfold sampleValue
    rw [int16At_eq_sint16 bytes hb]
  · norm_num [decodeAudioData, sampleValue, int16At, byteAt, clamp,
      List.range_succ, List.range_zero, List.getD_cons_zero, List.getD_cons_succ]
  · norm_num [decodeAudioData, sampleValue, int16At, byteAt, clamp,
      List.range_succ, List.range_zero, List.getD_cons_zero, List.getD_cons_succ]

/-- Witness for C3: the pair `0x00 0x80` at channel 0, index 0 follows the
signed little-endian rule. -/
theorem decodeAudioData_sample_rule_witness :
    ((decodeAudioData [0x00, 0x80] 24000 1).samples.getD 0 []).getD 0 0 =
      clamp ((sint16 (byteAt [0x00, 0x80] ((0 * 1 + 0) * 2))
        (byteAt [0x00, 0x80] ((0 * 1 + 0) * 2 + 1)) : ℚ) / 32768) :=
  decodeAudioData_sample_rule.1 [0x00, 0x80] 24000 1 0 0
    (by decide) (by decide) (by decide) (by decide)

/-- C7 (claim): every frame `decodeAudioData` produces satisfies the
channel invariant — there is one sample list per channel, all of equal
length `totalSampleCount / channelCount`, and entry `i` of channel `c` is
read at byte offset `(i * channelCount + c) * 2`. -/
theorem decodeAudioData_channel_invariant (bytes : List Nat) (sr cc : Nat) :
    (decodeAudioData bytes sr cc).samples.length = cc ∧
    (∀ ch ∈ (decodeAudioData bytes sr cc).samples,
        ch.length = bytes.length / 2 / cc) ∧
    (∀ c i, c < cc → i < bytes.length / 2 / cc →
        ((decodeAudioData bytes sr cc).samples.getD c []).getD i 0 =
          sampleValue bytes ((i * cc + c) * 2)) := by
  have hdiv : bytes.length / 2 / cc = bytes.length / (2 * cc) :=
    Nat.div_div_eq_div_mul _ _ _
  refine ⟨by simp [decodeAudioData], ?_, ?_⟩
  · intro ch hch
    simp only [decodeAudioData, List.mem_map, List.mem_range] at hch
    obtain ⟨c, _, rfl⟩ := hch
    simp [hdiv]
  · intro c i hc hi
    exact decodeAudioData_get bytes sr cc c i hc (hdiv ▸ hi)

/-- Witness for C7: 4 bytes, 2 channels — two channels, and sample 0 of
channel 1 sits at the interleaved offset. -/
theorem decodeAudioData_channel_invariant_witness :
    (decodeAudioData [1, 2, 3, 4] 24000 2).samples.length = 2 ∧
    ((decodeAudioData [1, 2, 3, 4] 24000 2).samples.getD 1 []).getD 0 0 =
      sampleValue [1, 2, 3, 4] ((0 * 2 + 1) * 2) :=
  ⟨(decodeAudioData_channel_invariant [1, 2, 3, 4] 24000 2).1,
    (decodeAudioData_channel_invariant [1, 2, 3, 4] 24000 2).2.2 1 0
      (by decide) (by decide)⟩

/-- The byte offsets the decoder reads for a whole frame stay below the
whole-frame extent of the input. -/
theorem offset_lt (i c cc q : Nat) (hc : c < cc) (hi : i < q) :
    (i * cc + c) * 2 + 1 < 2 * cc * q := by
  have h1 : i * cc + cc ≤ q * cc := by
    calc i * cc + cc = (i + 1) * cc := by ring
    _ ≤ q * cc := Nat.mul_le_mul_right cc (Nat.succ_le_of_lt hi)
  have h2 : 2 * cc * q = 2 * (q * cc) := by ring
  rw [h2]
  omega

/-- Reads of in-range offsets see through truncation. -/
theorem byteAt_take (bytes : List Nat) (n i : Nat) (h : i < n) :
    byteAt (bytes.take n) i = byteAt bytes i := by
  unfold byteAt
  rw [List.getD_eq_getElem?_getD, List.getD_eq_getElem?_getD,
    List.getElem?_take, if_pos h]

/-- C6 (claim): on input whose length is not a multiple of
`2 * channelCount`, `decodeAudioData` applies one fixed policy — it
truncates the trailing partial frame, producing the same frame as the
whole-frame part of the input — and, being a pure function, two runs on
the same input always produce the same result. -/
theorem decodeAudioData_truncation (bytes : List Nat) (sr cc : Nat)
    (h : bytes.length % (2 * cc) ≠ 0) :
    decodeAudioData bytes sr cc =
      decodeAudioData (bytes.take (2 * cc * (bytes.length / (2 * cc)))) sr cc := by
  rcases Nat.eq_zero_or_pos cc with hcc | hcc
  · subst hcc
    simp [decodeAudioData]
  · have hpos : 0 < 2 * cc := by omega
    have hnle : 2 * cc * (bytes.length / (2 * cc)) ≤ bytes.length := by
      rw [Nat.mul_comm]
      exact Nat.div_mul_le_self bytes.length (2 * cc)
    have hq : (bytes.take (2 * cc * (bytes.length / (2 * cc)))).length /
        (2 * cc) = bytes.length / (2 * cc) := by
      rw [List.length_take, Nat.min_eq_left hnle,
        Nat.mul_div_cancel_left _ hpos]
    simp only [decodeAudioData, hq]
    refine congrArg _ (List.map_congr_left ?_)
    intro c hc
    refine List.map_congr_left ?_
    intro i hi
    rw [List.mem_range] at hc hi
    have hoff := offset_lt i c cc (bytes.length / (2 * cc)) hc hi
    unfold sampleValue int16At
    rw [byteAt_take _ _ _ (by omega), byteAt_take _ _ _ (by omega)]

/-- A successful `mapM` over `Option` preserves length. -/
theorem mapM_some_length {α β : Type} (f : α → Option β) (l : List α) :
    ∀ ys, l.mapM f = some ys → ys.length = l.length := by
  induction l with
  | nil =>
      intro ys h
      simp only [List.mapM_nil, pure, Option.some.injEq] at h
      simp [← h]
  | cons a as ih =>
      intro ys h
      rw [List.mapM_cons] at h
      rcases hfa : f a with _ | b <;> rw [hfa] at h
      · simp at h
      · rcases hmm : as.mapM f with _ | bs <;> rw [hmm] at h
        · simp at h
        · simp only [Option.bind_some, Option.pure_def, Option.bind_eq_bind,
            Option.some_bind, Option.some.injEq] at h
          simp [← h, ih bs hmm]

/-- Length of the bytes `decodeQuads` reassembles: a sextet list of length
≡ 1 (mod 4) is rejected, and otherwise the output holds `3·len/4` bytes. -/
theorem decodeQuads_length : ∀ (l bs : List Nat), decodeQuads l = some bs →
    l.length % 4 ≠ 1 ∧ bs.length = 3 * l.length / 4 := by
  intro l
  induction l using decodeQuads.induct with
  | case1 =>
      intro bs h
      simp only [decodeQuads, Option.some.injEq] at h
      simp [← h]
  | case2 a =>
      intro bs h
      simp [decodeQuads] at h
  | case3 a b =>
      intro bs h
      simp only [decodeQuads, Option.some.injEq] at h
      simp [← h]
  | case4 a b c =>
      intro bs h
      simp only [decodeQuads, Option.some.injEq] at h
      simp [← h]
  | case5 a b c d rest ih =>
      intro bs h
      simp only [decodeQuads, Option.map_eq_some'] at h
      obtain ⟨bs0, hbs0, rfl⟩ := h
      obtain ⟨h1, h2⟩ := ih bs0 hbs0
      refine ⟨?_, ?_⟩ <;> simp only [List.length_cons] <;> omega

/-- C5 (claim): for every valid base64 input of length `4k` carrying `p`
padding characters, the byte sequence `decode` returns has length
`3k - p`. -/
theorem decode_length (s : String) (k p : Nat) (bs : List Nat)
    (hlen : s.length = 4 * k)
    (hp : (s.data.reverse.takeWhile (fun c => c = '=')).length = p)
    (hple : p ≤ 2)
    (hdec : decode s = some bs) :
    bs.length + p = 3 * k := by
  have hsplit := congrArg List.length
    (List.takeWhile_append_dropWhile (p := fun c => c = '=') (l := s.data.reverse))
  rw [List.length_append] at hsplit
  have hrev : s.data.reverse.length = 4 * k := by
    rw [List.length_reverse]
    exact hlen
  have hbody :
      ((s.data.reverse.dropWhile (fun c => c = '=')).reverse).length
        = 4 * k - p := by
    rw [List.length_reverse]
    omega
  unfold decode at hdec
  obtain ⟨sext, hmm, hdq⟩ := Option.bind_eq_some.mp hdec
  have hslen : sext.length = 4 * k - p := by
    rw [mapM_some_length _ _ _ hmm, hbody]
  obtain ⟨hmod, hblen⟩ := decodeQuads_length sext bs hdq
  rw [hslen] at hmod hblen
  omega

/-- Witness for C5: "QUJD" (k = 1, no padding) decodes to the three bytes
of "ABC". -/
theorem decode_length_witness :
    decode "QUJD" = some [65, 66, 67] ∧
      ([65, 66, 67] : List Nat).length + 0 = 3 * 1 :=
  ⟨by decide,
    decode_length "QUJD" 1 0 [65, 66, 67] (by decide) (by decide)
      (by decide) (by decide)⟩

/-- Witness for C6: a 3-byte mono input decodes as its first whole frame
(2 bytes). -/
theorem decodeAudioData_truncation_witness :
    decodeAudioData [1, 2, 3] 24000 1 =
      decodeAudioData (([1, 2, 3] : List Nat).take
        (2 * 1 * (([1, 2, 3] : List Nat).length / (2 * 1)))) 24000 1 :=
  decodeAudioData_truncation [1, 2, 3] 24000 1 (by decide)

/-- The map `b64Index` inverts `b64Char` on the 64 six-bit values. -/
theorem b64_inv_aux : ∀ n ∈ List.range 64, b64Index (b64Char n) = some n := by
  decide

/-- The map `b64Index` inverts `b64Char` below 64. -/
theorem b64Index_b64Char (n : Nat) (h : n < 64) :
    b64Index (b64Char n) = some n :=
  b64_inv_aux n (List.mem_range.mpr h)

/-- No base64 alphabet character is the padding character. -/
theorem b64Char_ne_pad_aux : ∀ n ∈ List.range 64, b64Char n ≠ '=' := by
  decide

/-- No base64 alphabet character is the padding character. -/
theorem b64Char_ne_pad (n : Nat) (h : n < 64) : b64Char n ≠ '=' :=
  b64Char_ne_pad_aux n (List.mem_range.mpr h)

/-- The unpadded encoding of a byte list contains no padding character. -/
theorem encodeBytes_no_pad (bs : List Nat) (hb : ∀ b ∈ bs, b < 256) :
    ∀ c ∈ encodeBytes bs, c ≠ '=' := by
  induction bs using encodeBytes.induct with
  | case1 => intro c hc; simp [encodeBytes] at hc
  | case2 a =>
      have ha : a < 256 := hb a (by simp)
      intro c hc
      simp only [encodeBytes, List.mem_cons, List.not_mem_nil, or_false] at hc
      rcases hc with rfl | rfl
      · exact b64Char_ne_pad _ (by omega)
      · exact b64Char_ne_pad _ (by omega)
  | case3 a b =>
      have ha : a < 256 := hb a (by simp)
      have hbb : b < 256 := hb b (by simp)
      intro c hc
      simp only [encodeBytes, List.mem_cons, List.not_mem_nil, or_false] at hc
      rcases hc with rfl | rfl | rfl
      · exact b64Char_ne_pad _ (by omega)
      · exact b64Char_ne_pad _ (by omega)
      · exact b64Char_ne_pad _ (by omega)
  | case4 a b c rest ih =>
      have ha : a < 256 := hb a (by simp)
      have hbb : b < 256 := hb b (by simp)
      have hcc : c < 256 := hb c (by simp)
      intro x hx
      simp only [encodeBytes, List.mem_cons] at hx
      rcases hx with rfl | rfl | rfl | rfl | hx
      · exact b64Char_ne_pad _ (by omega)
      · exact b64Char_ne_pad _ (by omega)
      · exact b64Char_ne_pad _ (by omega)
      · exact b64Char_ne_pad _ (by omega)
      · exact ih (fun y hy => hb y (by simp [hy])) x hx

/-- Dropping while a predicate no element satisfies is the identity. -/
theorem dropWhile_of_forall {α : Type} (p : α → Bool) (l : List α)
    (h : ∀ a ∈ l, ¬ p a) : l.dropWhile p = l := by
  cases l with
  | nil => rfl
  | cons x xs =>
      rw [List.dropWhile_cons, if_neg]
      simp only [Bool.not_eq_true] at h ⊢
      exact h x (List.mem_cons_self x xs)

/-- Decoding the sextets of an unpadded encoding recovers the bytes. -/
theorem encodeBytes_decodes (bs : List Nat) (hb : ∀ b ∈ bs, b < 256) :
    ((encodeBytes bs).mapM b64Index).bind decodeQuads = some bs := by
  induction bs using encodeBytes.induct with
  | case1 => rfl
  | case2 a =>
      have ha : a < 256 := hb a (by simp)
      show ((([b64Char (a / 4), b64Char (a % 4 * 16)]).mapM
        b64Index).bind decodeQuads) = some [a]
      rw [List.mapM_cons, List.mapM_cons, List.mapM_nil,
        b64Index_b64Char _ (by omega), b64Index_b64Char _ (by omega)]
      show decodeQuads [a / 4, a % 4 * 16] = some [a]
      simp only [decodeQuads, Option.some.injEq]
      congr 1
      omega
  | case3 a b =>
      have ha : a < 256 := hb a (by simp)
      have hbb : b < 256 := hb b (by simp)
      show ((([b64Char (a / 4), b64Char (a % 4 * 16 + b / 16),
        b64Char (b % 16 * 4)]).mapM b64Index).bind decodeQuads) = some [a, b]
      rw [List.mapM_cons, List.mapM_cons, List.mapM_cons, List.mapM_nil,
        b64Index_b64Char _ (by omega), b64Index_b64Char _ (by omega),
        b64Index_b64Char _ (by omega)]
      show decodeQuads [a / 4, a % 4 * 16 + b / 16, b % 16 * 4] = some [a, b]
      simp only [decodeQuads, Option.some.injEq]
      congr 1
      · omega
      congr 1
      omega
  | case4 a b c rest ih =>
      have ha : a < 256 := hb a (by simp)
      have hbb : b < 256 := hb b (by simp)
      have hcc : c < 256 := hb c (by simp)
      obtain ⟨sext, hmm, hdq⟩ := Option.bind_eq_some.mp
        (ih (fun y hy => hb y (by simp [hy])))
      show (((b64Char (a / 4) :: b64Char (a % 4 * 16 + b / 16) ::
        b64Char (b % 16 * 4 + c / 64) :: b64Char (c % 64) ::
        encodeBytes rest).mapM b64Index).bind decodeQuads) =
        some (a :: b :: c :: rest)
      rw [List.mapM_cons, List.mapM_cons, List.mapM_cons, List.mapM_cons,
        b64Index_b64Char _ (by omega), b64Index_b64Char _ (by omega),
        b64Index_b64Char _ (by omega), b64Index_b64Char _ (by omega), hmm]
      show decodeQuads (a / 4 :: (a % 4 * 16 + b / 16) ::
        (b % 16 * 4 + c / 64) :: c % 64 :: sext) = some (a :: b :: c :: rest)
      simp only [decodeQuads, hdq, Option.map_some', Option.some.injEq]
      congr 1
      · omega
      congr 1
      · omega
      congr 1
      omega

/-- Full base64 round-trip: decoding the unpadded encoding of a byte list
recovers it. -/
theorem decode_encodeBytes (bs : List Nat) (hb : ∀ b ∈ bs, b < 256) :
    decode (String.mk (encodeBytes bs)) = some bs := by
  unfold decode
  have hnp : ∀ c ∈ (encodeBytes bs).reverse, ¬ (c = '=' : Bool) := by
    intro c hc
    rw [List.mem_reverse] at hc
    simpa using encodeBytes_no_pad bs hb c hc
  show ((((encodeBytes bs).reverse.dropWhile
    (fun c => c = '=')).reverse).mapM b64Index).bind decodeQuads = some bs
  rw [dropWhile_of_forall _ _ hnp, List.reverse_reverse]
  exact encodeBytes_decodes bs hb

/-- Unfolding one sample of the PCM byte encoding. -/
theorem samplesToBytes_cons (s : Int) (ss : List Int) :
    samplesToBytes (s :: ss) =
      ((s % 65536).toNat % 256) :: ((s % 65536).toNat / 256) ::
        samplesToBytes ss := rfl

/-- The PCM byte encoding produces bytes. -/
theorem samplesToBytes_lt (ss : List Int) :
    ∀ b ∈ samplesToBytes ss, b < 256 := by
  induction ss with
  | nil => intro b hb; simp [samplesToBytes] at hb
  | cons s ss ih =>
      intro b hb
      rw [samplesToBytes_cons] at hb
      rcases hb with _ | ⟨_, hb⟩
      · omega
      rcases hb with _ | ⟨_, hb⟩
      · omega
      · exact ih b hb

/-- The PCM byte encoding of `n` samples has `2n` bytes. -/
theorem samplesToBytes_length (ss : List Int) :
    (samplesToBytes ss).length = 2 * ss.length := by
  induction ss with
  | nil => rfl
  | cons s ss ih =>
      rw [samplesToBytes_cons]
      simp only [List.length_cons, ih]
      omega

/-- The two bytes of sample `i` sit at offsets `2i`, `2i + 1` of the PCM
byte encoding. -/
theorem samplesToBytes_byteAt (ss : List Int) : ∀ i, i < ss.length →
    byteAt (samplesToBytes ss) (2 * i) =
      ((ss.getD i 0) % 65536).toNat % 256 ∧
    byteAt (samplesToBytes ss) (2 * i + 1) =
      ((ss.getD i 0) % 65536).toNat / 256 := by
  induction ss with
  | nil => intro i hi; simp at hi
  | cons s ss ih =>
      intro i hi
      cases i with
      | zero => exact ⟨rfl, rfl⟩
      | succ j =>
          have hj : j < ss.length := by simpa using hi
          have hoff : 2 * (j + 1) = 2 * j + 1 + 1 := by ring
          obtain ⟨ihl, ihr⟩ := ih j hj
          rw [samplesToBytes_cons]
          constructor
          · show byteAt _ (2 * (j + 1)) = _
            rw [hoff]
            simp only [byteAt, List.getD_cons_succ] at ihl ⊢
            exact ihl
          · show byteAt _ (2 * (j + 1) + 1) = _
            rw [hoff]
            simp only [byteAt, List.getD_cons_succ] at ihr ⊢
            exact ihr

/-- Clamping is the identity inside [-1, 1]. -/
theorem clamp_eq_self (q : ℚ) (h1 : -1 ≤ q) (h2 : q ≤ 1) : clamp q = q := by
  unfold clamp
  rw [if_neg (by linarith), if_neg (by linarith)]

/-- Reading sample `i` back from the PCM byte encoding of in-range int16
samples recovers the exact normalized value. -/
theorem sampleValue_samplesToBytes (ss : List Int) (i : Nat)
    (hi : i < ss.length) (hlo : -32768 ≤ ss.getD i 0)
    (hhi : ss.getD i 0 < 32768) :
    sampleValue (samplesToBytes ss) (2 * i) = (ss.getD i 0 : ℚ) / 32768 := by
  obtain ⟨h1, h2⟩ := samplesToBytes_byteAt ss i hi
  unfold sampleValue
  have hint : int16At (samplesToBytes ss) (2 * i) = ss.getD i 0 := by
    simp only [int16At, h1, h2]
    split <;> omega
  rw [hint]
  apply clamp_eq_self
  · rw [le_div_iff₀ (by norm_num : (0 : ℚ) < 32768)]
    have h : (-32768 : ℚ) ≤ (ss.getD i 0 : ℚ) := by exact_mod_cast hlo
    linarith
  · rw [div_le_iff₀ (by norm_num : (0 : ℚ) < 32768)]
    have h : (ss.getD i 0 : ℚ) ≤ 32767 := by
      exact_mod_cast (by omega : ss.getD i 0 ≤ 32767)
    linarith

/-- C4 (claim): encoding int16 samples as little-endian PCM bytes,
base64-encoding, then running Decoder → Interpreter reproduces the original
samples — exactly, hence within ±1/32768 per sample. -/
theorem tts_roundtrip (ss : List Int)
    (hs : ∀ s ∈ ss, -32768 ≤ s ∧ s < 32768) :
    ∃ bs, decode (String.mk (encodeBytes (samplesToBytes ss))) = some bs ∧
      (decodeAudioData bs 24000 1).samples =
        [ss.map (fun s : ℤ => (s : ℚ) / 32768)] ∧
      ∀ i, i < ss.length →
        |((decodeAudioData bs 24000 1).samples.getD 0 []).getD i 0 -
          (ss.getD i 0 : ℚ) / 32768| ≤ 1 / 32768 := by
  have hsamp : (decodeAudioData (samplesToBytes ss) 24000 1).samples =
      [ss.map (fun s : ℤ => (s : ℚ) / 32768)] := by
    simp only [decodeAudioData, samplesToBytes_length]
    have hfc : 2 * ss.length / (2 * 1) = ss.length := by omega
    rw [hfc, List.range_succ, List.range_zero, List.nil_append,
      List.map_cons, List.map_nil]
    congr 1
    apply List.ext_getElem
    · simp
    · intro n h1 h2
      simp only [List.getElem_map, List.getElem_range]
      have hn : n < ss.length := by simpa using h2
      have hoff : (n * 1 + 0) * 2 = 2 * n := by ring
      rw [hoff, sampleValue_samplesToBytes ss n hn
        (by rw [List.getD_eq_getElem _ _ hn]; exact (hs _ (List.getElem_mem hn)).1)
        (by rw [List.getD_eq_getElem _ _ hn]; exact (hs _ (List.getElem_mem hn)).2),
        List.getD_eq_getElem _ _ hn]
  refine ⟨samplesToBytes ss, decode_encodeBytes _ (samplesToBytes_lt ss),
    hsamp, ?_⟩
  intro i hi
  rw [hsamp, List.getD_cons_zero,
    List.getD_eq_getElem _ _ (by simpa using hi), List.getElem_map,
    List.getD_eq_getElem _ _ hi]
  simp only [sub_self, abs_zero]
  norm_num

/-- Witness for C4: the two samples -32768 and 32767 survive the
byte-encode / base64 / decode / interpret round trip. -/
theorem tts_roundtrip_witness :
    ∃ bs, decode (String.mk (encodeBytes (samplesToBytes [-32768, 32767])))
        = some bs ∧
      (decodeAudioData bs 24000 1).samples =
        [([-32768, 32767] : List Int).map (fun s : ℤ => (s : ℚ) / 32768)] ∧
      ∀ i, i < ([-32768, 32767] : List Int).length →
        |((decodeAudioData bs 24000 1).samples.getD 0 []).getD i 0 -
          (([-32768, 32767] : List Int).getD i 0 : ℚ) / 32768| ≤ 1 / 32768 :=
  tts_roundtrip [-32768, 32767] (by decide)

/-- Evaluating `v || default` on an absent-or-string field with a non-empty string
default is a non-empty string. -/
theorem jsOr_strField (v : Option Json) (d : String) (hd : d ≠ "")
    (hv : strField v) : nonEmptyStr (jsOr v (Json.str d)) := by
  rcases hv with rfl | ⟨s0, rfl⟩
  · exact ⟨d, rfl, hd⟩
  · by_cases hs : s0 = ""
    · subst hs
      exact ⟨d, by simp [jsOr, Json.truthy], hd⟩
    · exact ⟨s0, by simp [jsOr, Json.truthy, hs], hs⟩

/-- C10 counterexample: on the response text "x" parsing to the JSON object
whose `title` is the number 5, `generateLesson` returns a lesson whose
title is that number — not a string at all, refuting "title, introduction,
and story are always non-empty strings" for arbitrary parseable JSON. -/
theorem generateLesson_title_not_string :
    generateLesson (some "x") parseTitleNum =
      Except.ok
        { title := Json.num 5
          introduction := Json.str "Welcome to your lesson!"
          vocabulary := []
          story := Json.str "Let\x27s learn together!"
          quiz := [] } ∧
    ∀ s : String, Json.num 5 ≠ Json.str s := by
  refine ⟨?_, fun s h => Json.noConfusion h⟩
  rfl

/-- C10 (amended): `generateLesson` throws exactly when the response text
is absent or empty ("Failed to generate lesson content") or not parseable
JSON ("Invalid lesson format received"); on parsed JSON it returns a lesson
whose `vocabulary` and `quiz` are always arrays (empty unless the parsed
field is an array) and whose `title`, `introduction` and `story` are the
parsed field values when truthy and the fixed non-empty string defaults
otherwise — in particular non-empty strings whenever the parsed fields are
strings or missing (a truthy non-string field value passes through
unchanged). -/
theorem generateLesson_amended :
    (∀ jsonParse, generateLesson none jsonParse =
        Except.error "Failed to generate lesson content") ∧
    (∀ jsonParse, generateLesson (some "") jsonParse =
        Except.error "Failed to generate lesson content") ∧
    (∀ t jsonParse, t ≠ "" → jsonParse t = none →
        generateLesson (some t) jsonParse =
          Except.error "Invalid lesson format received") ∧
    (∀ t jsonParse parsed, t ≠ "" → jsonParse t = some parsed →
        generateLesson (some t) jsonParse = Except.ok
          { title := jsOr (parsed.getField "title")
              (Json.str "Untitled Lesson")
            introduction := jsOr (parsed.getField "introduction")
              (Json.str "Welcome to your lesson!")
            vocabulary := Json.asArray (parsed.getField "vocabulary")
            story := jsOr (parsed.getField "story")
              (Json.str "Let\x27s learn together!")
            quiz := Json.asArray (parsed.getField "quiz") }) ∧
    (∀ t jsonParse parsed lc, t ≠ "" → jsonParse t = some parsed →
        generateLesson (some t) jsonParse = Except.ok lc →
        (strField (parsed.getField "title") → nonEmptyStr lc.title) ∧
        (strField (parsed.getField "introduction") →
            nonEmptyStr lc.introduction) ∧
        (strField (parsed.getField "story") → nonEmptyStr lc.story)) := by
  refine ⟨fun _ => rfl, fun _ => rfl, ?_, ?_, ?_⟩
  · intro t jsonParse ht hp
    simp [generateLesson, ht, hp]
  · intro t jsonParse parsed ht hp
    simp [generateLesson, ht, hp]
  · intro t jsonParse parsed lc ht hp hok
    simp only [generateLesson, if_neg ht, hp] at hok
    rw [Except.ok.injEq] at hok
    subst hok
    exact ⟨fun hv => jsOr_strField _ _ (by decide) hv,
      fun hv => jsOr_strField _ _ (by decide) hv,
      fun hv => jsOr_strField _ _ (by decide) hv⟩

/-- Witness for C10 (amended): unparseable non-empty text throws the
invalid-format error. -/
theorem generateLesson_amended_witness :
    generateLesson (some "x") (fun _ => none) =
      Except.error "Invalid lesson format received" :=
  generateLesson_amended.2.2.1 "x" (fun _ => none) (by decide) rfl

/-- Witness for C9: a run whose environment reaches playback (api returns
inline audio "AAAA", playback succeeds) plays on the freshly constructed,
resumed context. -/
theorem playback_context_not_suspended_witness :
    (⟨0, 24000, CtxState.running⟩ : AudioCtx) =
      (getAudioContext ⟨none, 0⟩ CtxState.suspended).1 ∧
    (⟨0, 24000, CtxState.running⟩ : AudioCtx).state ≠ CtxState.suspended :=
  playback_context_not_suspended
    ⟨none, CtxState.suspended, Except.ok (some "AAAA"),
      fun _ _ => Except.ok ()⟩
    ⟨none, 0⟩ ⟨0, 24000, CtxState.running⟩ (by decide)
